import Mathlib

/-!
Shallow embedding of the categorization core of the personal-finance app
(main.py): the rule store, the keyword-matching pass of
categorize_transaction, the match log, add_keyword_to_category, the
startup loaders for the two persisted files, and the save-changes handler
that feeds manual reassignments back into the rule store.
-/

set_option autoImplicit false

/-- Python str.lower(), modelled character by character. -/
def pyLower (s : String) : String := String.mk (s.data.map Char.toLower)

/-- Python str.strip(): drop whitespace from both ends. -/
def pyStrip (s : String) : String :=
  String.mk (((s.data.dropWhile Char.isWhitespace).reverse.dropWhile
    Char.isWhitespace).reverse)

/-- Normalization the matching pass applies to a transaction description:
detail = row["Details"].lower().strip(). -/
def normDetail (d : String) : String := pyStrip (pyLower d)

/-- Normalization the matching pass applies to a stored keyword:
keyword.strip().lower(). -/
def normKeyword (k : String) : String := pyLower (pyStrip k)

/-- The rule store st.session_state.categories: a mapping, in insertion
order, from category name to its list of keyword strings. -/
abbrev RuleStore := List (String × List String)

/-- The match log st.session_state.matched: category name to the list of
normalized descriptions that matched it in the most recent run. -/
abbrev MatchLog := List (String × List String)

/-- A transaction row: the Details cell and the Category cell; the
category is none while the dataframe has no Category column yet. -/
structure Row where
  details : String
  category : Option String
deriving DecidableEq

/-- An uploaded batch: whether the Details column is present, and the
rows. -/
structure Batch where
  hasDetails : Bool
  rows : List Row
deriving DecidableEq

/-- The rebuilt log at the start of a run:
matched = dict of cat to empty list for cat in categories. -/
def initLog (store : RuleStore) : MatchLog :=
  store.map (fun p => (p.1, []))

/-- st.session_state.matched[category].append(detail). -/
def logAppend (log : MatchLog) (cat d : String) : MatchLog :=
  log.map (fun p => if p.1 = cat then (p.1, p.2 ++ [d]) else p)

/-- First-occurrence association lookup, the access categories[c]. -/
def lookupStore : RuleStore → String → Option (List String)
  | [], _ => none
  | p :: rest, c => if p.1 = c then some p.2 else lookupStore rest c

/-- Replace the entry of key c (a Python dict holds each key once). -/
def updateStore : RuleStore → String → List String → RuleStore
  | [], _, _ => []
  | p :: rest, c, kws => if p.1 = c then (c, kws) :: rest else p :: updateStore rest c kws

/-- The inner row loop of categorize_transaction for one category: for
each row whose normalized detail is in the lowered keyword list, set its
Category cell and append the normalized detail to the log entry of that
category. -/
def catPass (cat : String) (lowered : List String) :
    List Row → MatchLog → List Row × MatchLog
  | [], log => ([], log)
  | r :: rs, log =>
    if normDetail r.details ∈ lowered then
      let res := catPass cat lowered rs (logAppend log cat (normDetail r.details))
      (⟨r.details, some cat⟩ :: res.1, res.2)
    else
      let res := catPass cat lowered rs log
      (r :: res.1, res.2)

/-- The outer category loop: skip "Uncategorized" and keyword-less
categories, otherwise run the row pass with the lowered keywords. -/
def allPasses : RuleStore → List Row → MatchLog → List Row × MatchLog
  | [], rows, log => (rows, log)
  | (cat, kws) :: rest, rows, log =>
    if cat = "Uncategorized" ∨ kws = [] then
      allPasses rest rows log
    else
      let res := catPass cat (kws.map normKeyword) rows log
      allPasses rest res.1 res.2

/-- Result of one call to categorize_transaction: the returned dataframe,
the session match log after the call, whether save_log ran, and whether
st.warning ran. -/
structure CatResult where
  batch : Batch
  matched : MatchLog
  logWritten : Bool
  warned : Bool
deriving DecidableEq

/-- categorize_transaction(df): warn and return the batch untouched when
the Details column is absent; otherwise rebuild the match log, reset every
Category cell to "Uncategorized", run the keyword passes and save the
log. -/
def categorize_transaction (store : RuleStore) (prevMatched : MatchLog) (df : Batch) :
    CatResult :=
  if df.hasDetails then
    let res := allPasses store (df.rows.map (fun r => ⟨r.details, some "Uncategorized"⟩))
      (initLog store)
    ⟨⟨true, res.1⟩, res.2, true, false⟩
  else
    ⟨df, prevMatched, false, true⟩

/-- Result of add_keyword_to_category: the rule store after the call,
whether save_categories ran, and the outcome: some b for a normal return
of b, none when the access categories[category] raises KeyError. -/
structure AddKeywordResult where
  categories : RuleStore
  saved : Bool
  ret : Option Bool
deriving DecidableEq

/-- add_keyword_to_category(category, keyword): strip the keyword; an
empty string short-circuits to return False; otherwise the membership test
keyword not in categories[category] runs, raising KeyError when the
category is absent; a fresh keyword is appended and the store saved. -/
def add_keyword_to_category (store : RuleStore) (category keyword : String) :
    AddKeywordResult :=
  let kw := pyStrip keyword
  if kw = "" then ⟨store, false, some false⟩
  else
    match lookupStore store category with
    | none => ⟨store, false, none⟩
    | some kws =>
      if kw ∈ kws then ⟨store, false, some false⟩
      else ⟨updateStore store category (kws ++ [kw]), true, some true⟩

/-- The default store the session starts from. -/
def defaultCategories : RuleStore := [("Uncategorized", [])]

/-- Startup load of categories.json. The argument encodes the file system:
none when the file is missing, some none when it exists but is not valid
JSON, some (some s) when it parses to s. The read is not wrapped in
try/except, so a parse failure raises. -/
def loadCategories : Option (Option RuleStore) → Except Unit RuleStore
  | none => Except.ok defaultCategories
  | some none => Except.error ()
  | some (some s) => Except.ok s

/-- Startup load of log.json into st.session_state.matched: on the first
run (no prior session value) the default per-category-empty structure is
used and the file is not read; on later runs the file is read when
present, with a JSONDecodeError falling back to the default structure. -/
def loadMatched (cats : RuleStore) (prev : Option MatchLog)
    (file : Option (Option MatchLog)) : MatchLog :=
  match prev with
  | none => initLog cats
  | some m =>
    match file with
    | none => m
    | some none => initLog cats
    | some (some l) => l

/-- The save-button loop over edited_df: rows whose Category cell differs
from the stored one get the new category written back into debits_df and
the Details text pushed through add_keyword_to_category. none models an
uncaught exception (a missing index or a KeyError inside the keyword
add). -/
def save_changes_aux : RuleStore → List Row → List Row → Nat → Option (RuleStore × List Row)
  | store, debits, [], _ => some (store, debits)
  | store, debits, e :: es, idx =>
    match debits[idx]? with
    | none => none
    | some dRow =>
      if e.category = dRow.category then
        save_changes_aux store debits es (idx + 1)
      else
        match e.category with
        | none => none
        | some newCat =>
          let debitsNext := debits.set idx ⟨dRow.details, some newCat⟩
          let res := add_keyword_to_category store newCat e.details
          match res.ret with
          | none => none
          | some _ => save_changes_aux res.categories debitsNext es (idx + 1)

/-- The save-button handler, started at index 0. -/
def save_changes (store : RuleStore) (debits edited : List Row) :
    Option (RuleStore × List Row) :=
  save_changes_aux store debits edited 0

/-- A category entry matches a description when the keyword pass for it
runs (its name is not "Uncategorized") and the normalized description is
among its normalized keywords. -/
def isActive (d : String) (p : String × List String) : Prop :=
  p.1 ≠ "Uncategorized" ∧ normDetail d ∈ p.2.map normKeyword

instance (d : String) (p : String × List String) : Decidable (isActive d p) :=
  inferInstanceAs (Decidable (_ ∧ _))

/-- The Category cell a description ends with after the passes of the
stores entries still to come, starting from the cell value acc. -/
def assignedFrom : RuleStore → String → Option String → Option String
  | [], _, acc => acc
  | (cat, kws) :: rest, d, acc =>
    if cat = "Uncategorized" ∨ kws = [] then assignedFrom rest d acc
    else if normDetail d ∈ kws.map normKeyword then assignedFrom rest d (some cat)
    else assignedFrom rest d acc

/-- The normalized details, in row order, that the pass for a category
with keyword list kws appends to its log entry. -/
def matchedDetails (kws : List String) (ds : List String) : List String :=
  ds.filterMap (fun d =>
    if normDetail d ∈ kws.map normKeyword then some (normDetail d) else none)

/-! Structural lemmas about the match log and the matching passes. -/

theorem logAppend_keys (log : MatchLog) (cat d : String) :
    (logAppend log cat d).map Prod.fst = log.map Prod.fst := by
  induction log with
  | nil => rfl
  | cons p rest ih =>
    by_cases h : p.1 = cat <;> simp [logAppend, h] <;>
      simpa [logAppend] using ih

theorem lookup_logAppend_self (log : MatchLog) (cat d : String) :
    lookupStore (logAppend log cat d) cat = (lookupStore log cat).map (· ++ [d]) := by
  induction log with
  | nil => rfl
  | cons p rest ih =>
    by_cases h : p.1 = cat
    · simp [logAppend, lookupStore, h]
    · simpa [logAppend, lookupStore, h] using ih

theorem lookup_logAppend_ne (log : MatchLog) (cat d c : String) (hne : c ≠ cat) :
    lookupStore (logAppend log cat d) c = lookupStore log c := by
  induction log with
  | nil => rfl
  | cons p rest ih =>
    have hfst : (if p.1 = cat then (p.1, p.2 ++ [d]) else p).1 = p.1 := by
      by_cases h : p.1 = cat <;> simp [h]
    by_cases hc : p.1 = c
    · have h : ¬ p.1 = cat := fun hcat => hne (hc ▸ hcat)
      simp [logAppend, lookupStore, h, hc, hne]
    · simp [logAppend, lookupStore, hfst, hc]
      simpa [logAppend] using ih

theorem catPass_fst (cat : String) (lw : List String) (rows : List Row) (log : MatchLog) :
    (catPass cat lw rows log).1 =
      rows.map (fun r => if normDetail r.details ∈ lw then ⟨r.details, some cat⟩ else r) := by
  induction rows generalizing log with
  | nil => rfl
  | cons r rs ih =>
    by_cases h : normDetail r.details ∈ lw <;> simp [catPass, h, ih]

theorem catPass_details (cat : String) (lw : List String) (rows : List Row) (log : MatchLog) :
    ((catPass cat lw rows log).1).map Row.details = rows.map Row.details := by
  rw [catPass_fst]
  induction rows with
  | nil => rfl
  | cons r rs ih =>
    by_cases h : normDetail r.details ∈ lw <;> simp [h] <;> simpa using ih

theorem catPass_snd_keys (cat : String) (lw : List String) (rows : List Row) (log : MatchLog) :
    ((catPass cat lw rows log).2).map Prod.fst = log.map Prod.fst := by
  induction rows generalizing log with
  | nil => rfl
  | cons r rs ih =>
    by_cases h : normDetail r.details ∈ lw
    · simp [catPass, h, ih, logAppend_keys]
    · simp [catPass, h, ih]

theorem catPass_lookup_self (cat : String) (lw : List String) (rows : List Row)
    (log : MatchLog) :
    lookupStore (catPass cat lw rows log).2 cat =
      (lookupStore log cat).map
        (· ++ (rows.map Row.details).filterMap
          (fun d => if normDetail d ∈ lw then some (normDetail d) else none)) := by
  induction rows generalizing log with
  | nil =>
    cases h : lookupStore log cat <;> simp [catPass, h]
  | cons r rs ih =>
    by_cases h : normDetail r.details ∈ lw
    · simp only [catPass, h, if_pos]
      rw [ih, lookup_logAppend_self]
      cases hl : lookupStore log cat <;> simp [h]
    · simp only [catPass, h, if_neg, not_false_iff]
      rw [ih]
      simp [h]

theorem catPass_lookup_ne (cat : String) (lw : List String) (rows : List Row)
    (log : MatchLog) (c : String) (hne : c ≠ cat) :
    lookupStore (catPass cat lw rows log).2 c = lookupStore log c := by
  induction rows generalizing log with
  | nil => rfl
  | cons r rs ih =>
    by_cases h : normDetail r.details ∈ lw
    · simp only [catPass, h, if_pos]
      rw [ih, lookup_logAppend_ne _ _ _ _ hne]
    · simp only [catPass, h, if_neg, not_false_iff]
      exact ih _

theorem allPasses_cons_skip (cat : String) (kws : List String) (rest : RuleStore)
    (rows : List Row) (log : MatchLog) (h : cat = "Uncategorized" ∨ kws = []) :
    allPasses ((cat, kws) :: rest) rows log = allPasses rest rows log := by
  simp [allPasses, h]

theorem allPasses_cons_run (cat : String) (kws : List String) (rest : RuleStore)
    (rows : List Row) (log : MatchLog) (h : ¬ (cat = "Uncategorized" ∨ kws = [])) :
    allPasses ((cat, kws) :: rest) rows log =
      allPasses rest (catPass cat (kws.map normKeyword) rows log).1
        (catPass cat (kws.map normKeyword) rows log).2 := by
  simp [allPasses, h]

theorem allPasses_fst (store : RuleStore) (rows : List Row) (log : MatchLog) :
    (allPasses store rows log).1 =
      rows.map (fun r => ⟨r.details, assignedFrom store r.details r.category⟩) := by
  induction store generalizing rows log with
  | nil => exact (List.map_id rows).symm
  | cons p rest ih =>
    obtain ⟨cat, kws⟩ := p
    by_cases h : cat = "Uncategorized" ∨ kws = []
    · rw [allPasses_cons_skip _ _ _ _ _ h, ih]
      congr 1
      funext r
      simp [assignedFrom, h]
    · rw [allPasses_cons_run _ _ _ _ _ h, ih, catPass_fst, List.map_map]
      congr 1
      funext r
      simp only [Function.comp_apply]
      by_cases hm : normDetail r.details ∈ kws.map normKeyword
      · rw [if_pos hm]
        simp only [assignedFrom]
        rw [if_neg h, if_pos hm]
      · rw [if_neg hm]
        simp only [assignedFrom]
        rw [if_neg h, if_neg hm]

theorem allPasses_details (store : RuleStore) (rows : List Row) (log : MatchLog) :
    ((allPasses store rows log).1).map Row.details = rows.map Row.details := by
  rw [allPasses_fst, List.map_map]
  rfl

theorem allPasses_snd_keys (store : RuleStore) (rows : List Row) (log : MatchLog) :
    ((allPasses store rows log).2).map Prod.fst = log.map Prod.fst := by
  induction store generalizing rows log with
  | nil => rfl
  | cons p rest ih =>
    obtain ⟨cat, kws⟩ := p
    by_cases h : cat = "Uncategorized" ∨ kws = []
    · rw [allPasses_cons_skip _ _ _ _ _ h, ih]
    · rw [allPasses_cons_run _ _ _ _ _ h, ih, catPass_snd_keys]

theorem allPasses_lookup_notmem (store : RuleStore) (rows : List Row) (log : MatchLog)
    (c : String) (hc : c ∉ store.map Prod.fst) :
    lookupStore (allPasses store rows log).2 c = lookupStore log c := by
  induction store generalizing rows log with
  | nil => rfl
  | cons p rest ih =>
    obtain ⟨cat, kws⟩ := p
    rw [List.map_cons, List.mem_cons] at hc
    push_neg at hc
    obtain ⟨h1, h2⟩ := hc
    by_cases h : cat = "Uncategorized" ∨ kws = []
    · rw [allPasses_cons_skip _ _ _ _ _ h]
      exact ih _ _ h2
    · rw [allPasses_cons_run _ _ _ _ _ h, ih _ _ h2,
        catPass_lookup_ne _ _ _ _ _ h1]

theorem assignedFrom_no_active (store : RuleStore) (d : String) (acc : Option String)
    (h : ∀ p ∈ store, ¬ isActive d p) : assignedFrom store d acc = acc := by
  induction store generalizing acc with
  | nil => rfl
  | cons p rest ih =>
    obtain ⟨cat, kws⟩ := p
    have hrest : ∀ q ∈ rest, ¬ isActive d q :=
      fun q hq => h q (List.mem_cons_of_mem _ hq)
    by_cases hskip : cat = "Uncategorized" ∨ kws = []
    · simp only [assignedFrom, hskip, if_pos]
      exact ih _ hrest
    · have hcatne : cat ≠ "Uncategorized" := fun hc => hskip (Or.inl hc)
      have hm : normDetail d ∉ kws.map normKeyword :=
        fun hmem => h (cat, kws) (List.mem_cons_self _ _) ⟨hcatne, hmem⟩
      simp only [assignedFrom, hskip, if_neg, not_false_iff, hm]
      exact ih _ hrest

theorem assignedFrom_append (s₁ s₂ : RuleStore) (d : String) (acc : Option String) :
    assignedFrom (s₁ ++ s₂) d acc = assignedFrom s₂ d (assignedFrom s₁ d acc) := by
  induction s₁ generalizing acc with
  | nil => rfl
  | cons p rest ih =>
    obtain ⟨cat, kws⟩ := p
    by_cases h : cat = "Uncategorized" ∨ kws = []
    · simp [assignedFrom, h, ih]
    · by_cases hm : normDetail d ∈ kws.map normKeyword <;>
        simp [assignedFrom, h, hm, ih]

theorem assignedFrom_last (pre post : RuleStore) (q : String × List String)
    (d : String) (acc : Option String) (hq : isActive d q)
    (hpost : ∀ p ∈ post, ¬ isActive d p) :
    assignedFrom (pre ++ q :: post) d acc = some q.1 := by
  rw [assignedFrom_append]
  obtain ⟨cat, kws⟩ := q
  obtain ⟨h1, h2⟩ := hq
  have hskip : ¬ (cat = "Uncategorized" ∨ kws = []) := by
    rintro (hc | hk)
    · exact h1 hc
    · rw [hk] at h2; simp at h2
  simp only [assignedFrom, hskip, if_neg, not_false_iff, h2, if_pos]
  exact assignedFrom_no_active post d (some cat) hpost

theorem assignedFrom_eq_some (store : RuleStore) (d : String) (acc : Option String)
    (c : String) (h : assignedFrom store d acc = some c) :
    acc = some c ∨ ∃ kws, (c, kws) ∈ store ∧ isActive d (c, kws) := by
  induction store generalizing acc with
  | nil => exact Or.inl h
  | cons p rest ih =>
    obtain ⟨cat, kws⟩ := p
    by_cases hskip : cat = "Uncategorized" ∨ kws = []
    · rcases ih _ (by simpa [assignedFrom, hskip] using h) with h1 | ⟨k, hk, ha⟩
      · exact Or.inl h1
      · exact Or.inr ⟨k, List.mem_cons_of_mem _ hk, ha⟩
    · by_cases hm : normDetail d ∈ kws.map normKeyword
      · rcases ih _ (by simpa [assignedFrom, hskip, hm] using h) with h1 | ⟨k, hk, ha⟩
        · have hcat : cat = c := by injection h1
          subst hcat
          exact Or.inr ⟨kws, List.mem_cons_self _ _,
            ⟨fun hu => hskip (Or.inl hu), hm⟩⟩
        · exact Or.inr ⟨k, List.mem_cons_of_mem _ hk, ha⟩
      · rcases ih _ (by simpa [assignedFrom, hskip, hm] using h) with h1 | ⟨k, hk, ha⟩
        · exact Or.inl h1
        · exact Or.inr ⟨k, List.mem_cons_of_mem _ hk, ha⟩

theorem assignedFrom_isSome (store : RuleStore) (d : String) (a : String) :
    ∃ c, assignedFrom store d (some a) = some c := by
  induction store generalizing a with
  | nil => exact ⟨a, rfl⟩
  | cons p rest ih =>
    obtain ⟨cat, kws⟩ := p
    by_cases hskip : cat = "Uncategorized" ∨ kws = []
    · simpa [assignedFrom, hskip] using ih a
    · by_cases hm : normDetail d ∈ kws.map normKeyword
      · simpa [assignedFrom, hskip, hm] using ih cat
      · simpa [assignedFrom, hskip, hm] using ih a

theorem assignedFrom_active_exists (store : RuleStore) (d : String) :
    ∀ acc, (∃ p ∈ store, isActive d p) →
      ∃ c kws, assignedFrom store d acc = some c ∧ (c, kws) ∈ store ∧
        isActive d (c, kws) := by
  induction store with
  | nil =>
    rintro acc ⟨p, hp, _⟩
    cases hp
  | cons p rest ih =>
    intro acc h
    obtain ⟨cat, kws⟩ := p
    by_cases hrest : ∃ q ∈ rest, isActive d q
    · by_cases hskip : cat = "Uncategorized" ∨ kws = []
      · obtain ⟨c, k, h1, h2, h3⟩ := ih acc hrest
        exact ⟨c, k, by simpa [assignedFrom, hskip] using h1,
          List.mem_cons_of_mem _ h2, h3⟩
      · by_cases hm : normDetail d ∈ kws.map normKeyword
        · obtain ⟨c, k, h1, h2, h3⟩ := ih (some cat) hrest
          exact ⟨c, k, by simpa [assignedFrom, hskip, hm] using h1,
            List.mem_cons_of_mem _ h2, h3⟩
        · obtain ⟨c, k, h1, h2, h3⟩ := ih acc hrest
          exact ⟨c, k, by simpa [assignedFrom, hskip, hm] using h1,
            List.mem_cons_of_mem _ h2, h3⟩
    · push_neg at hrest
      obtain ⟨q, hq, hact⟩ := h
      rcases List.mem_cons.mp hq with rfl | hqr
      · obtain ⟨h1, h2⟩ := hact
        have hskip : ¬ (cat = "Uncategorized" ∨ kws = []) := by
          rintro (hc | hk)
          · exact h1 hc
          · rw [hk] at h2; simp at h2
        refine ⟨cat, kws, ?_, List.mem_cons_self _ _, ⟨h1, h2⟩⟩
        simp only [assignedFrom, hskip, if_neg, not_false_iff, h2, if_pos]
        exact assignedFrom_no_active rest d (some cat) hrest
      · exact absurd hact (hrest q hqr)

theorem lookup_initLog (store : RuleStore) (c : String)
    (h : c ∈ store.map Prod.fst) : lookupStore (initLog store) c = some [] := by
  induction store with
  | nil => cases h
  | cons p rest ih =>
    by_cases hp : p.1 = c
    · simp [initLog, lookupStore, hp]
    · rw [List.map_cons, List.mem_cons] at h
      rcases h with h1 | h1
      · exact absurd h1.symm hp
      · simpa [initLog, lookupStore, hp] using ih h1

theorem initLog_keys (store : RuleStore) :
    (initLog store).map Prod.fst = store.map Prod.fst := by
  simp [initLog, List.map_map]

theorem allPasses_lookup_mem (store : RuleStore) (rows : List Row) (log : MatchLog)
    (c : String) (kws : List String) (hnd : (store.map Prod.fst).Nodup)
    (hmem : (c, kws) ∈ store) (hcU : c ≠ "Uncategorized") :
    lookupStore (allPasses store rows log).2 c =
      (lookupStore log c).map (· ++ matchedDetails kws (rows.map Row.details)) := by
  induction store generalizing rows log with
  | nil => cases hmem
  | cons p rest ih =>
    obtain ⟨cat, kws₀⟩ := p
    rw [List.map_cons, List.nodup_cons] at hnd
    obtain ⟨hnotin, hndrest⟩ := hnd
    rcases List.mem_cons.mp hmem with heq | hmemrest
    · have h1 : c = cat := congrArg Prod.fst heq
      have h2 : kws = kws₀ := congrArg Prod.snd heq
      subst h1
      subst h2
      by_cases hk : kws = []
      · rw [allPasses_cons_skip _ _ _ _ _ (Or.inr hk),
          allPasses_lookup_notmem rest rows log c hnotin]
        cases hl : lookupStore log c <;> simp [matchedDetails, hk, hl]
      · have hskip : ¬ (c = "Uncategorized" ∨ kws = []) := by
          rintro (h | h)
          · exact hcU h
          · exact hk h
        rw [allPasses_cons_run _ _ _ _ _ hskip,
          allPasses_lookup_notmem rest _ _ c hnotin, catPass_lookup_self]
        rfl
    · have hckeys : c ∈ rest.map Prod.fst := by
        have := List.mem_map_of_mem Prod.fst hmemrest
        simpa using this
      have hcc : c ≠ cat := fun h => hnotin (h ▸ hckeys)
      by_cases hskip : cat = "Uncategorized" ∨ kws₀ = []
      · rw [allPasses_cons_skip _ _ _ _ _ hskip]
        exact ih _ _ hndrest hmemrest
      · rw [allPasses_cons_run _ _ _ _ _ hskip, ih _ _ hndrest hmemrest,
          catPass_lookup_ne _ _ _ _ _ hcc, catPass_details]

theorem categorize_hasDetails (store : RuleStore) (prev : MatchLog) (df : Batch)
    (h : df.hasDetails = true) :
    categorize_transaction store prev df =
      ⟨⟨true, (allPasses store (df.rows.map fun r => ⟨r.details, some "Uncategorized"⟩)
          (initLog store)).1⟩,
        (allPasses store (df.rows.map fun r => ⟨r.details, some "Uncategorized"⟩)
          (initLog store)).2,
        true, false⟩ := by
  simp [categorize_transaction, h]

theorem categorize_noDetails (store : RuleStore) (prev : MatchLog) (df : Batch)
    (h : df.hasDetails = false) :
    categorize_transaction store prev df = ⟨df, prev, false, true⟩ := by
  simp [categorize_transaction, h]

theorem categorize_rows (store : RuleStore) (prev : MatchLog) (df : Batch)
    (h : df.hasDetails = true) :
    (categorize_transaction store prev df).batch.rows =
      df.rows.map
        (fun r => ⟨r.details, assignedFrom store r.details (some "Uncategorized")⟩) := by
  rw [categorize_hasDetails store prev df h]
  simp only []
  rw [allPasses_fst, List.map_map]
  rfl

theorem categorize_rowAt (store : RuleStore) (prev : MatchLog) (df : Batch)
    (i : Nat) (r : Row) (h : df.hasDetails = true) (hr : df.rows[i]? = some r) :
    (categorize_transaction store prev df).batch.rows[i]? =
      some ⟨r.details, assignedFrom store r.details (some "Uncategorized")⟩ := by
  rw [categorize_rows store prev df h, List.getElem?_map, hr]
  rfl

theorem categorize_matched_keys (store : RuleStore) (prev : MatchLog) (df : Batch)
    (h : df.hasDetails = true) :
    ((categorize_transaction store prev df).matched).map Prod.fst =
      store.map Prod.fst := by
  rw [categorize_hasDetails store prev df h]
  simp only []
  rw [allPasses_snd_keys, initLog_keys]

theorem categorize_matched_lookup (store : RuleStore) (prev : MatchLog) (df : Batch)
    (c : String) (kws : List String) (h : df.hasDetails = true)
    (hnd : (store.map Prod.fst).Nodup) (hmem : (c, kws) ∈ store)
    (hcU : c ≠ "Uncategorized") :
    lookupStore (categorize_transaction store prev df).matched c =
      some (matchedDetails kws (df.rows.map Row.details)) := by
  rw [categorize_hasDetails store prev df h]
  simp only []
  rw [allPasses_lookup_mem _ _ _ _ _ hnd hmem hcU,
    lookup_initLog store c (by
      have := List.mem_map_of_mem Prod.fst hmem
      simpa using this)]
  simp [List.map_map]
  rfl

/-! Claim theorems. -/

/-- C1: a run over a batch with a Details column assigns a category other
than "Uncategorized" to a row precisely when the normalized description is
exactly equal to one of the normalized keywords of some category; the
assigned category always holds such an exactly equal keyword, and
substring containment alone never triggers a match. In particular, with
rule store Uncategorized:[] and Groceries:[walmart], the row Walmart gets
Groceries while the row Walmart Store stays Uncategorized. -/
theorem claim_C1 :
    (∀ (store : RuleStore) (prev : MatchLog) (df : Batch) (i : Nat) (r : Row),
      df.hasDetails = true → df.rows[i]? = some r →
      ∃ c, (categorize_transaction store prev df).batch.rows[i]? =
          some ⟨r.details, some c⟩ ∧
        (c ≠ "Uncategorized" →
          ∃ kws, (c, kws) ∈ store ∧ normDetail r.details ∈ kws.map normKeyword) ∧
        ((∃ c2 kws2, (c2, kws2) ∈ store ∧ c2 ≠ "Uncategorized" ∧
            normDetail r.details ∈ kws2.map normKeyword) → c ≠ "Uncategorized")) ∧
    (categorize_transaction [("Uncategorized", []), ("Groceries", ["walmart"])] []
        ⟨true, [⟨"Walmart", none⟩]⟩).batch.rows = [⟨"Walmart", some "Groceries"⟩] ∧
    (categorize_transaction [("Uncategorized", []), ("Groceries", ["walmart"])] []
        ⟨true, [⟨"Walmart Store", none⟩]⟩).batch.rows =
      [⟨"Walmart Store", some "Uncategorized"⟩] := by
  refine ⟨?_, by decide, by decide⟩
  intro store prev df i r hD hr
  obtain ⟨c, hc⟩ := assignedFrom_isSome store r.details "Uncategorized"
  refine ⟨c, ?_, ?_, ?_⟩
  · rw [categorize_rowAt store prev df i r hD hr, hc]
  · intro hcU
    rcases assignedFrom_eq_some store r.details _ c hc with h1 | ⟨kws, hk, ha⟩
    · injection h1 with h1
      exact absurd h1.symm hcU
    · exact ⟨kws, hk, ha.2⟩
  · rintro ⟨c2, kws2, hmem, hne2, hm2⟩ hcU
    obtain ⟨c3, kws3, h3, hmem3, hact3⟩ :=
      assignedFrom_active_exists store r.details (some "Uncategorized")
        ⟨(c2, kws2), hmem, hne2, hm2⟩
    rw [hc] at h3
    injection h3 with h3
    exact hact3.1 (h3 ▸ hcU)

/-- C1 witness: the main clause of C1 instantiated on the Groceries
scenario. -/
theorem claim_C1_witness :
    ∃ c, (categorize_transaction [("Uncategorized", []), ("Groceries", ["walmart"])] []
        ⟨true, [⟨"Walmart", none⟩]⟩).batch.rows[0]? = some ⟨"Walmart", some c⟩ ∧
      (c ≠ "Uncategorized" →
        ∃ kws, (c, kws) ∈ [("Uncategorized", []), ("Groceries", ["walmart"])] ∧
          normDetail "Walmart" ∈ kws.map normKeyword) ∧
      ((∃ c2 kws2, (c2, kws2) ∈ [("Uncategorized", []), ("Groceries", ["walmart"])] ∧
          c2 ≠ "Uncategorized" ∧ normDetail "Walmart" ∈ kws2.map normKeyword) →
        c ≠ "Uncategorized") :=
  claim_C1.1 [("Uncategorized", []), ("Groceries", ["walmart"])] []
    ⟨true, [⟨"Walmart", none⟩]⟩ 0 ⟨"Walmart", none⟩ rfl rfl

/-- C2: after a run over a batch with a Details column, every row carries
exactly one category, and it is "Uncategorized" exactly when no keyword of
any other category equals the normalized description. -/
theorem claim_C2 :
    ∀ (store : RuleStore) (prev : MatchLog) (df : Batch) (i : Nat) (r : Row),
      df.hasDetails = true → df.rows[i]? = some r →
      ∃ c, (categorize_transaction store prev df).batch.rows[i]? =
          some ⟨r.details, some c⟩ ∧
        (c = "Uncategorized" ↔
          ∀ p ∈ store, p.1 ≠ "Uncategorized" →
            normDetail r.details ∉ p.2.map normKeyword) := by
  intro store prev df i r hD hr
  obtain ⟨c, hc⟩ := assignedFrom_isSome store r.details "Uncategorized"
  refine ⟨c, ?_, ?_, ?_⟩
  · rw [categorize_rowAt store prev df i r hD hr, hc]
  · intro hU p hp hpne hm
    obtain ⟨c3, kws3, h3, hmem3, hact3⟩ :=
      assignedFrom_active_exists store r.details (some "Uncategorized")
        ⟨p, hp, hpne, hm⟩
    rw [hc] at h3
    injection h3 with h3
    exact hact3.1 (h3 ▸ hU)
  · intro hnone
    have hno : ∀ p ∈ store, ¬ isActive r.details p :=
      fun p hp ha => hnone p hp ha.1 ha.2
    have h2 := assignedFrom_no_active store r.details (some "Uncategorized") hno
    rw [hc] at h2
    exact Option.some.inj h2

/-- C2 witness: C2 instantiated on the Groceries scenario row. -/
theorem claim_C2_witness :
    ∃ c, (categorize_transaction [("Uncategorized", []), ("Groceries", ["walmart"])] []
        ⟨true, [⟨"Walmart", none⟩]⟩).batch.rows[0]? = some ⟨"Walmart", some c⟩ ∧
      (c = "Uncategorized" ↔
        ∀ p ∈ [("Uncategorized", []), ("Groceries", ["walmart"])],
          p.1 ≠ "Uncategorized" → normDetail "Walmart" ∉ p.2.map normKeyword) :=
  claim_C2 [("Uncategorized", []), ("Groceries", ["walmart"])] []
    ⟨true, [⟨"Walmart", none⟩]⟩ 0 ⟨"Walmart", none⟩ rfl rfl

/-- C3: when a row matches keywords in several categories, the category
assigned is the last matching one in rule store order, because the pass
does not stop at the first match; concretely, with categories A and B both
holding keyword x, the row x ends as B. -/
theorem claim_C3 :
    (∀ (store pre post : RuleStore) (c : String) (kws : List String)
      (prev : MatchLog) (df : Batch) (i : Nat) (r : Row),
      store = pre ++ (c, kws) :: post →
      df.hasDetails = true → df.rows[i]? = some r →
      c ≠ "Uncategorized" → normDetail r.details ∈ kws.map normKeyword →
      (∀ q ∈ post, ¬ isActive r.details q) →
      (categorize_transaction store prev df).batch.rows[i]? =
        some ⟨r.details, some c⟩) ∧
    (categorize_transaction [("Uncategorized", []), ("A", ["x"]), ("B", ["x"])] []
        ⟨true, [⟨"x", none⟩]⟩).batch.rows = [⟨"x", some "B"⟩] := by
  refine ⟨?_, by decide⟩
  intro store pre post c kws prev df i r hs hD hr hcU hm hpost
  rw [categorize_rowAt store prev df i r hD hr, hs,
    assignedFrom_last pre post (c, kws) r.details (some "Uncategorized") ⟨hcU, hm⟩ hpost]

/-- C3 witness: C3 instantiated on the two-category tie. -/
theorem claim_C3_witness :
    (categorize_transaction [("Uncategorized", []), ("A", ["x"]), ("B", ["x"])] []
        ⟨true, [⟨"x", none⟩]⟩).batch.rows[0]? = some ⟨"x", some "B"⟩ :=
  claim_C3.1 [("Uncategorized", []), ("A", ["x"]), ("B", ["x"])]
    [("Uncategorized", []), ("A", ["x"])] [] "B" ["x"] []
    ⟨true, [⟨"x", none⟩]⟩ 0 ⟨"x", none⟩ rfl rfl rfl (by decide) (by decide)
    (by intro q hq; cases hq)

/-- C6 counterexample: on a batch without a Details column the code
returns the dataframe before the Category column is created, so the rows
are not default-categorized as "Uncategorized"; the match log is not
written. -/
theorem claim_C6_counterexample :
    (categorize_transaction [("Uncategorized", [])] [("stale", [])]
        ⟨false, [⟨"x", none⟩]⟩).batch.rows = [⟨"x", none⟩] ∧
    [(⟨"x", none⟩ : Row)] ≠ [(⟨"x", some "Uncategorized"⟩ : Row)] ∧
    (categorize_transaction [("Uncategorized", [])] [("stale", [])]
        ⟨false, [⟨"x", none⟩]⟩).logWritten = false := by decide

/-- C6 amended: when the batch lacks the Details column,
categorize_transaction reports a warning and returns the batch completely
unmodified: no Category column is assigned (rows keep whatever category
field they had, none for a fresh upload), the in-memory match log keeps
its previous value, and no match log is written. -/
theorem claim_C6 :
    ∀ (store : RuleStore) (prev : MatchLog) (df : Batch),
      df.hasDetails = false →
      categorize_transaction store prev df = ⟨df, prev, false, true⟩ :=
  fun store prev df h => categorize_noDetails store prev df h

/-- C6 witness: the amended C6 at a concrete one-row batch. -/
theorem claim_C6_witness :
    categorize_transaction [("Uncategorized", [])] [] ⟨false, [⟨"x", none⟩]⟩ =
      ⟨⟨false, [⟨"x", none⟩]⟩, [], false, true⟩ :=
  claim_C6 [("Uncategorized", [])] [] ⟨false, [⟨"x", none⟩]⟩ rfl

/-- Rows with equal Details columns are mapped equally by a function of
the details alone. -/
theorem map_details_congr (f : String → Row) :
    ∀ (l1 l2 : List Row), l1.map Row.details = l2.map Row.details →
      l1.map (fun r => f r.details) = l2.map (fun r => f r.details) := by
  intro l1
  induction l1 with
  | nil =>
    intro l2 h
    cases l2 with
    | nil => rfl
    | cons s ss => simp at h
  | cons r rs ih =>
    intro l2 h
    cases l2 with
    | nil => simp at h
    | cons s ss =>
      simp only [List.map_cons, List.cons.injEq] at h
      obtain ⟨h1, h2⟩ := h
      simp only [List.map_cons, h1, ih ss h2]

/-- C7: categorization is idempotent: feeding the batch and match log
produced by one run back into a second run with the same rule store
returns exactly the same result (the second run fully resets assignments
and rebuilds the log). -/
theorem claim_C7 :
    ∀ (store : RuleStore) (prev : MatchLog) (df : Batch),
      categorize_transaction store (categorize_transaction store prev df).matched
          (categorize_transaction store prev df).batch =
        categorize_transaction store prev df := by
  intro store prev df
  by_cases h : df.hasDetails = true
  · rw [categorize_hasDetails store prev df h]
    rw [categorize_hasDetails _ _ _ rfl]
    have hdet := allPasses_details store
      (df.rows.map fun r => ⟨r.details, some "Uncategorized"⟩) (initLog store)
    have hdet2 : (df.rows.map fun r =>
        (⟨r.details, some "Uncategorized"⟩ : Row)).map Row.details =
        df.rows.map Row.details := by
      rw [List.map_map]
      rfl
    have hreset := map_details_congr (fun d => ⟨d, some "Uncategorized"⟩)
      ((allPasses store (df.rows.map fun r => ⟨r.details, some "Uncategorized"⟩)
        (initLog store)).1) df.rows (hdet.trans hdet2)
    rw [show ((allPasses store (df.rows.map fun r => ⟨r.details, some "Uncategorized"⟩)
        (initLog store)).1).map (fun r => (⟨r.details, some "Uncategorized"⟩ : Row)) =
        df.rows.map (fun r => ⟨r.details, some "Uncategorized"⟩) from hreset]
  · have h2 : df.hasDetails = false := by simpa using h
    rw [categorize_noDetails store prev df h2]
    exact categorize_noDetails store prev df h2

/-- C9: after a run over a batch with a Details column, the key list of
the match log equals the key list of the rule store at the time of the
run, and the log is written. -/
theorem claim_C9 :
    ∀ (store : RuleStore) (prev : MatchLog) (df : Batch),
      df.hasDetails = true →
      ((categorize_transaction store prev df).matched).map Prod.fst =
          store.map Prod.fst ∧
        (categorize_transaction store prev df).logWritten = true := by
  intro store prev df h
  refine ⟨categorize_matched_keys store prev df h, ?_⟩
  rw [categorize_hasDetails store prev df h]

/-- C9 witness: C9 on a store with a stale previous log. -/
theorem claim_C9_witness :
    ((categorize_transaction [("Uncategorized", []), ("Groceries", ["walmart"])]
        [("stale", ["old"])] ⟨true, [⟨"Walmart", none⟩]⟩).matched).map Prod.fst =
      ["Uncategorized", "Groceries"] ∧
    (categorize_transaction [("Uncategorized", []), ("Groceries", ["walmart"])]
        [("stale", ["old"])] ⟨true, [⟨"Walmart", none⟩]⟩).logWritten = true := by
  have h := claim_C9 [("Uncategorized", []), ("Groceries", ["walmart"])]
    [("stale", ["old"])] ⟨true, [⟨"Walmart", none⟩]⟩ rfl
  exact ⟨h.1.trans (by decide), h.2⟩

/-- C10: each category other than "Uncategorized" logs the normalized
description of every row whose normalized description equals one of its
normalized keywords, regardless of the final assignment; so with A and B
both holding keyword x, the row x appears in both log entries although it
is assigned only B. -/
theorem claim_C10 :
    (∀ (store : RuleStore) (prev : MatchLog) (df : Batch) (c : String)
      (kws : List String),
      df.hasDetails = true → (store.map Prod.fst).Nodup →
      (c, kws) ∈ store → c ≠ "Uncategorized" →
      lookupStore (categorize_transaction store prev df).matched c =
        some (matchedDetails kws (df.rows.map Row.details))) ∧
    (categorize_transaction [("Uncategorized", []), ("A", ["x"]), ("B", ["x"])] []
        ⟨true, [⟨"x", none⟩]⟩).matched =
      [("Uncategorized", []), ("A", ["x"]), ("B", ["x"])] ∧
    (categorize_transaction [("Uncategorized", []), ("A", ["x"]), ("B", ["x"])] []
        ⟨true, [⟨"x", none⟩]⟩).batch.rows = [⟨"x", some "B"⟩] := by
  refine ⟨?_, by decide, by decide⟩
  intro store prev df c kws h hnd hmem hcU
  exact categorize_matched_lookup store prev df c kws h hnd hmem hcU

/-- C10 witness: the log entry of A on the tie scenario. -/
theorem claim_C10_witness :
    lookupStore (categorize_transaction
        [("Uncategorized", []), ("A", ["x"]), ("B", ["x"])] []
        ⟨true, [⟨"x", none⟩]⟩).matched "A" = some ["x"] := by
  have h := claim_C10.1 [("Uncategorized", []), ("A", ["x"]), ("B", ["x"])] []
    ⟨true, [⟨"x", none⟩]⟩ "A" ["x"] rfl (by decide) (by decide) (by decide)
  exact h.trans (by decide)

theorem lookup_updateStore_self (store : RuleStore) (c : String)
    (l kws : List String) (h : lookupStore store c = some kws) :
    lookupStore (updateStore store c l) c = some l := by
  induction store with
  | nil => cases h
  | cons p rest ih =>
    by_cases hp : p.1 = c
    · simp [updateStore, lookupStore, hp]
    · simp only [lookupStore] at h
      rw [if_neg hp] at h
      simp only [updateStore]
      rw [if_neg hp]
      simp only [lookupStore]
      rw [if_neg hp]
      exact ih h

theorem lookup_updateStore_ne (store : RuleStore) (c : String) (l : List String)
    (c2 : String) (h : c2 ≠ c) :
    lookupStore (updateStore store c l) c2 = lookupStore store c2 := by
  induction store with
  | nil => rfl
  | cons p rest ih =>
    by_cases hp : p.1 = c
    · simp only [updateStore]
      rw [if_pos hp]
      simp only [lookupStore]
      rw [if_neg (fun hh : c = c2 => h hh.symm),
        if_neg (fun hh : p.1 = c2 => h (hh ▸ hp))]
    · simp only [updateStore]
      rw [if_neg hp]
      simp only [lookupStore]
      by_cases hq : p.1 = c2
      · rw [if_pos hq, if_pos hq]
      · rw [if_neg hq, if_neg hq]
        exact ih

theorem updateStore_keys (store : RuleStore) (c : String) (l : List String) :
    (updateStore store c l).map Prod.fst = store.map Prod.fst := by
  induction store with
  | nil => rfl
  | cons p rest ih =>
    by_cases hp : p.1 = c
    · simp [updateStore, hp]
    · simp only [updateStore]
      rw [if_neg hp]
      simp [ih]

theorem add_keyword_keys (store : RuleStore) (c t : String) :
    ((add_keyword_to_category store c t).categories).map Prod.fst =
      store.map Prod.fst := by
  by_cases h1 : pyStrip t = ""
  · simp [add_keyword_to_category, h1]
  · cases h2 : lookupStore store c with
    | none => simp [add_keyword_to_category, h1, h2]
    | some kws =>
      by_cases h3 : pyStrip t ∈ kws
      · simp only [add_keyword_to_category, h2]
        rw [if_neg h1, if_pos h3]
      · simp only [add_keyword_to_category, h2]
        rw [if_neg h1, if_neg h3]
        exact updateStore_keys store c (kws ++ [pyStrip t])

theorem add_keyword_lookup_mono (store : RuleStore) (c t c2 : String)
    (kws2 : List String) (h : lookupStore store c2 = some kws2) :
    ∃ kws3, lookupStore (add_keyword_to_category store c t).categories c2 =
      some kws3 ∧ kws2 ⊆ kws3 := by
  by_cases h1 : pyStrip t = ""
  · exact ⟨kws2, by simp [add_keyword_to_category, h1, h], List.Subset.refl _⟩
  · cases h2 : lookupStore store c with
    | none =>
      refine ⟨kws2, ?_, List.Subset.refl _⟩
      simp only [add_keyword_to_category, h2]
      rw [if_neg h1]
      exact h
    | some kws =>
      by_cases h3 : pyStrip t ∈ kws
      · refine ⟨kws2, ?_, List.Subset.refl _⟩
        simp only [add_keyword_to_category, h2]
        rw [if_neg h1, if_pos h3]
        exact h
      · by_cases hcc : c2 = c
        · subst hcc
          have hkk : kws2 = kws := Option.some.inj (h.symm.trans h2)
          refine ⟨kws ++ [pyStrip t], ?_, ?_⟩
          · simp only [add_keyword_to_category, h2]
            rw [if_neg h1, if_neg h3]
            exact lookup_updateStore_self store c2 _ kws h2
          · rw [hkk]
            exact List.subset_append_left _ _
        · refine ⟨kws2, ?_, List.Subset.refl _⟩
          simp only [add_keyword_to_category, h2]
          rw [if_neg h1, if_neg h3]
          rw [lookup_updateStore_ne store c _ c2 hcc]
          exact h

/-- C4 counterexample: add_keyword_to_category with a nonexistent
category and a nonempty keyword does not no-op returning False: the
lookup categories[category] raises KeyError, modelled as ret = none. -/
theorem claim_C4_counterexample :
    add_keyword_to_category [("Uncategorized", [])] "Dining" "coffee" ≠
      ⟨[("Uncategorized", [])], false, some false⟩ ∧
    (add_keyword_to_category [("Uncategorized", [])] "Dining" "coffee").ret =
      none := by decide

/-- C4 amended: add_keyword_to_category no-ops (store unchanged, no file
write, returns False) when the stripped text is empty or already present
under an existing category; when the category is missing and the stripped
text nonempty it raises KeyError instead of no-oping; otherwise it appends
the stripped keyword, persists, and returns True, and a second identical
call is a no-op. -/
theorem claim_C4 :
    (∀ (store : RuleStore) (c t : String), pyStrip t = "" →
      add_keyword_to_category store c t = ⟨store, false, some false⟩) ∧
    (∀ (store : RuleStore) (c t : String), pyStrip t ≠ "" →
      lookupStore store c = none →
      add_keyword_to_category store c t = ⟨store, false, none⟩) ∧
    (∀ (store : RuleStore) (c t : String) (kws : List String), pyStrip t ≠ "" →
      lookupStore store c = some kws → pyStrip t ∈ kws →
      add_keyword_to_category store c t = ⟨store, false, some false⟩) ∧
    (∀ (store : RuleStore) (c t : String) (kws : List String), pyStrip t ≠ "" →
      lookupStore store c = some kws → pyStrip t ∉ kws →
      add_keyword_to_category store c t =
        ⟨updateStore store c (kws ++ [pyStrip t]), true, some true⟩ ∧
      add_keyword_to_category (updateStore store c (kws ++ [pyStrip t])) c t =
        ⟨updateStore store c (kws ++ [pyStrip t]), false, some false⟩) := by
  refine ⟨?_, ?_, ?_, ?_⟩
  · intro store c t h1
    simp [add_keyword_to_category, h1]
  · intro store c t h1 h2
    simp only [add_keyword_to_category, h2]
    rw [if_neg h1]
  · intro store c t kws h1 h2 h3
    simp only [add_keyword_to_category, h2]
    rw [if_neg h1, if_pos h3]
  · intro store c t kws h1 h2 h3
    constructor
    · simp only [add_keyword_to_category, h2]
      rw [if_neg h1, if_neg h3]
    · have h4 : lookupStore (updateStore store c (kws ++ [pyStrip t])) c =
          some (kws ++ [pyStrip t]) :=
        lookup_updateStore_self store c _ kws h2
      have h5 : pyStrip t ∈ kws ++ [pyStrip t] :=
        List.mem_append_right _ (List.mem_singleton.mpr rfl)
      simp only [add_keyword_to_category, h4]
      rw [if_neg h1, if_pos h5]

/-- C4 witness: the four branches of the amended C4 at concrete inputs. -/
theorem claim_C4_witness :
    add_keyword_to_category [("Uncategorized", []), ("Groceries", ["walmart"])]
        "Groceries" "  " =
      ⟨[("Uncategorized", []), ("Groceries", ["walmart"])], false, some false⟩ ∧
    add_keyword_to_category [("Uncategorized", [])] "Groceries" "tesco" =
      ⟨[("Uncategorized", [])], false, none⟩ ∧
    add_keyword_to_category [("Uncategorized", []), ("Groceries", ["walmart"])]
        "Groceries" " walmart " =
      ⟨[("Uncategorized", []), ("Groceries", ["walmart"])], false, some false⟩ ∧
    add_keyword_to_category [("Uncategorized", []), ("Groceries", ["walmart"])]
        "Groceries" "tesco" =
      ⟨[("Uncategorized", []), ("Groceries", ["walmart", "tesco"])], true, some true⟩ := by
  refine ⟨?_, ?_, ?_, ?_⟩
  · exact claim_C4.1 _ "Groceries" "  " (by decide)
  · exact claim_C4.2.1 _ "Groceries" "tesco" (by decide) (by decide)
  · exact claim_C4.2.2.1 _ "Groceries" " walmart " ["walmart"] (by decide)
      (by decide) (by decide)
  · exact (claim_C4.2.2.2 _ "Groceries" "tesco" ["walmart"] (by decide)
      (by decide) (by decide)).1

/-- C5 counterexample: when the categories file exists but is corrupt,
the startup load raises instead of falling back to the default store. -/
theorem claim_C5_counterexample :
    loadCategories (some none) = Except.error () ∧
    loadCategories (some none) ≠ Except.ok defaultCategories :=
  ⟨rfl, fun h => Except.noConfusion h⟩

/-- C5 amended: the rules loader falls back to the default store only
when the file is missing; a corrupt rules file raises (the run fails),
because only the log read is wrapped in try/except; the match-log loader
does fall back to the per-category-empty structure on a parse failure,
and on the first run it starts from that default without reading. -/
theorem claim_C5 :
    loadCategories none = Except.ok defaultCategories ∧
    loadCategories (some none) = Except.error () ∧
    (∀ (s : RuleStore) (prevLog : MatchLog),
      loadMatched s (some prevLog) (some none) = initLog s) ∧
    (∀ s : RuleStore, loadMatched s none none = initLog s) :=
  ⟨rfl, rfl, fun _ _ => rfl, fun _ => rfl⟩

theorem save_changes_aux_mono :
    ∀ (es : List Row) (store : RuleStore) (debits : List Row) (idx : Nat)
      (store2 : RuleStore) (debits2 : List Row),
      save_changes_aux store debits es idx = some (store2, debits2) →
      ∀ (c : String) (kws : List String), lookupStore store c = some kws →
        ∃ kws2, lookupStore store2 c = some kws2 ∧ kws ⊆ kws2 := by
  intro es
  induction es with
  | nil =>
    intro store debits idx store2 debits2 h c kws hl
    simp only [save_changes_aux] at h
    have h2 : store = store2 := congrArg Prod.fst (Option.some.inj h)
    subst h2
    exact ⟨kws, hl, List.Subset.refl _⟩
  | cons e es ih =>
    intro store debits idx store2 debits2 h c kws hl
    simp only [save_changes_aux] at h
    cases hd : debits[idx]? with
    | none =>
      simp only [hd] at h
      exact Option.noConfusion h
    | some dRow =>
      simp only [hd] at h
      by_cases hsame : e.category = dRow.category
      · rw [if_pos hsame] at h
        exact ih store debits (idx + 1) store2 debits2 h c kws hl
      · rw [if_neg hsame] at h
        cases hec : e.category with
        | none =>
          simp only [hec] at h
          exact Option.noConfusion h
        | some newCat =>
          simp only [hec] at h
          cases hres : (add_keyword_to_category store newCat e.details).ret with
          | none =>
            simp only [hres] at h
            exact Option.noConfusion h
          | some b =>
            simp only [hres] at h
            obtain ⟨kws1, hk1, hsub1⟩ :=
              add_keyword_lookup_mono store newCat e.details c kws hl
            obtain ⟨kws2x, hk2, hsub2⟩ := ih _ _ _ _ _ h c kws1 hk1
            exact ⟨kws2x, hk2, List.Subset.trans hsub1 hsub2⟩

theorem save_changes_aux_keys :
    ∀ (es : List Row) (store : RuleStore) (debits : List Row) (idx : Nat)
      (store2 : RuleStore) (debits2 : List Row),
      save_changes_aux store debits es idx = some (store2, debits2) →
      store2.map Prod.fst = store.map Prod.fst := by
  intro es
  induction es with
  | nil =>
    intro store debits idx store2 debits2 h
    simp only [save_changes_aux] at h
    have h2 : store = store2 := congrArg Prod.fst (Option.some.inj h)
    subst h2
    rfl
  | cons e es ih =>
    intro store debits idx store2 debits2 h
    simp only [save_changes_aux] at h
    cases hd : debits[idx]? with
    | none =>
      simp only [hd] at h
      exact Option.noConfusion h
    | some dRow =>
      simp only [hd] at h
      by_cases hsame : e.category = dRow.category
      · rw [if_pos hsame] at h
        exact ih store debits (idx + 1) store2 debits2 h
      · rw [if_neg hsame] at h
        cases hec : e.category with
        | none =>
          simp only [hec] at h
          exact Option.noConfusion h
        | some newCat =>
          simp only [hec] at h
          cases hres : (add_keyword_to_category store newCat e.details).ret with
          | none =>
            simp only [hres] at h
            exact Option.noConfusion h
          | some b =>
            simp only [hres] at h
            exact (ih _ _ _ _ _ h).trans (add_keyword_keys store newCat e.details)

theorem save_changes_aux_get_lt :
    ∀ (es : List Row) (store : RuleStore) (debits : List Row) (idx : Nat)
      (store2 : RuleStore) (debits2 : List Row),
      save_changes_aux store debits es idx = some (store2, debits2) →
      ∀ k, k < idx → debits2[k]? = debits[k]? := by
  intro es
  induction es with
  | nil =>
    intro store debits idx store2 debits2 h k hk
    simp only [save_changes_aux] at h
    have h2 : debits = debits2 := congrArg Prod.snd (Option.some.inj h)
    subst h2
    rfl
  | cons e es ih =>
    intro store debits idx store2 debits2 h k hk
    simp only [save_changes_aux] at h
    cases hd : debits[idx]? with
    | none =>
      simp only [hd] at h
      exact Option.noConfusion h
    | some dRow =>
      simp only [hd] at h
      by_cases hsame : e.category = dRow.category
      · rw [if_pos hsame] at h
        exact ih store debits (idx + 1) store2 debits2 h k (Nat.lt_succ_of_lt hk)
      · rw [if_neg hsame] at h
        cases hec : e.category with
        | none =>
          simp only [hec] at h
          exact Option.noConfusion h
        | some newCat =>
          simp only [hec] at h
          cases hres : (add_keyword_to_category store newCat e.details).ret with
          | none =>
            simp only [hres] at h
            exact Option.noConfusion h
          | some b =>
            simp only [hres] at h
            have h3 := ih _ _ _ _ _ h k (Nat.lt_succ_of_lt hk)
            rw [h3, List.getElem?_set_ne (Nat.ne_of_lt hk).symm]

theorem save_changes_aux_at :
    ∀ (es : List Row) (store : RuleStore) (debits : List Row) (idx0 : Nat)
      (store2 : RuleStore) (debits2 : List Row) (n : Nat) (e dRow : Row)
      (newCat : String),
      save_changes_aux store debits es idx0 = some (store2, debits2) →
      es[n]? = some e → debits[idx0 + n]? = some dRow →
      e.category = some newCat → dRow.category ≠ some newCat →
      pyStrip e.details ≠ "" →
      debits2[idx0 + n]? = some ⟨dRow.details, some newCat⟩ ∧
      ∃ kws, lookupStore store2 newCat = some kws ∧ pyStrip e.details ∈ kws := by
  intro es
  induction es with
  | nil =>
    intro store debits idx0 store2 debits2 n e dRow newCat h hn
    exact absurd hn (by simp)
  | cons e0 es ih =>
    intro store debits idx0 store2 debits2 n e dRow newCat h hn hdx hec hne ht
    simp only [save_changes_aux] at h
    cases hd : debits[idx0]? with
    | none =>
      simp only [hd] at h
      exact Option.noConfusion h
    | some dRow0 =>
      simp only [hd] at h
      cases n with
      | zero =>
        have he : e0 = e := by simpa using hn
        subst he
        rw [Nat.add_zero] at hdx
        have hdd : dRow0 = dRow := Option.some.inj ((hd.symm.trans hdx))
        subst hdd
        have hsame : ¬ (e0.category = dRow0.category) := by
          intro hh
          rw [hec] at hh
          exact hne hh.symm
        rw [if_neg hsame] at h
        simp only [hec] at h
        cases hres : (add_keyword_to_category store newCat e0.details).ret with
        | none =>
          simp only [hres] at h
          exact Option.noConfusion h
        | some b =>
          simp only [hres] at h
          have hlen : idx0 < debits.length := (List.getElem?_eq_some.mp hd).1
          have hset : (debits.set idx0
              (⟨dRow0.details, some newCat⟩ : Row))[idx0]? =
              some ⟨dRow0.details, some newCat⟩ :=
            List.getElem?_set_eq_of_lt _ hlen
          have hkeep := save_changes_aux_get_lt es _ _ (idx0 + 1) store2 debits2 h
            idx0 (Nat.lt_succ_self idx0)
          refine ⟨?_, ?_⟩
          · rw [Nat.add_zero, hkeep, hset]
          · have hmem0 : ∃ kws0,
                lookupStore (add_keyword_to_category store newCat
                  e0.details).categories newCat = some kws0 ∧
                pyStrip e0.details ∈ kws0 := by
              cases h2 : lookupStore store newCat with
              | none =>
                exfalso
                have : (add_keyword_to_category store newCat e0.details).ret =
                    none := by
                  simp only [add_keyword_to_category, h2]
                  rw [if_neg ht]
                rw [hres] at this
                exact Option.noConfusion this
              | some kws0 =>
                by_cases h3 : pyStrip e0.details ∈ kws0
                · refine ⟨kws0, ?_, h3⟩
                  simp only [add_keyword_to_category, h2]
                  rw [if_neg ht, if_pos h3]
                  exact h2
                · refine ⟨kws0 ++ [pyStrip e0.details], ?_, ?_⟩
                  · simp only [add_keyword_to_category, h2]
                    rw [if_neg ht, if_neg h3]
                    exact lookup_updateStore_self store newCat _ kws0 h2
                  · exact List.mem_append_right _ (List.mem_singleton.mpr rfl)
            obtain ⟨kws0, hk0, hm0⟩ := hmem0
            obtain ⟨kws2, hk2, hsub⟩ :=
              save_changes_aux_mono es _ _ (idx0 + 1) store2 debits2 h
                newCat kws0 hk0
            exact ⟨kws2, hk2, hsub hm0⟩
      | succ m =>
        have hn2 : es[m]? = some e := by simpa using hn
        have hidx : idx0 + (m + 1) = (idx0 + 1) + m := by omega
        by_cases hsame : e0.category = dRow0.category
        · rw [if_pos hsame] at h
          have hdx2 : debits[(idx0 + 1) + m]? = some dRow := by
            rw [← hidx]
            exact hdx
          have := ih store debits (idx0 + 1) store2 debits2 m e dRow newCat
            h hn2 hdx2 hec hne ht
          rw [hidx]
          exact this
        · rw [if_neg hsame] at h
          cases hec0 : e0.category with
          | none =>
            simp only [hec0] at h
            exact Option.noConfusion h
          | some nc0 =>
            simp only [hec0] at h
            cases hres : (add_keyword_to_category store nc0 e0.details).ret with
            | none =>
              simp only [hres] at h
              exact Option.noConfusion h
            | some b =>
              simp only [hres] at h
              have hne2 : idx0 ≠ idx0 + (m + 1) := by omega
              have hdx2 : (debits.set idx0
                  (⟨dRow0.details, some nc0⟩ : Row))[(idx0 + 1) + m]? =
                  some dRow := by
                rw [← hidx, List.getElem?_set_ne hne2]
                exact hdx
              have := ih _ _ (idx0 + 1) store2 debits2 m e dRow newCat
                h hn2 hdx2 hec hne ht
              rw [hidx]
              exact this

/-- Keys listed without repetition pin down the keyword list of an entry
appearing anywhere in the store. -/
theorem lookup_eq_of_split (pre post : RuleStore) (c : String) (kws : List String)
    (store : RuleStore) (hs : store = pre ++ (c, kws) :: post)
    (hnd : (store.map Prod.fst).Nodup) : lookupStore store c = some kws := by
  subst hs
  induction pre with
  | nil => simp [lookupStore]
  | cons p pre ih =>
    rw [List.cons_append, List.map_cons, List.nodup_cons] at hnd
    obtain ⟨hp, hnd2⟩ := hnd
    have hc : c ∈ (pre ++ (c, kws) :: post).map Prod.fst := by
      exact List.mem_map_of_mem Prod.fst
        (List.mem_append_right pre (List.mem_cons_self (c, kws) post))
    have hpc : p.1 ≠ c := fun hh => hp (hh ▸ hc)
    rw [List.cons_append]
    simp only [lookupStore]
    rw [if_neg hpc]
    exact ih hnd2

/-- C8 counterexample: the user reassigns the transaction Coffee Shop
from Uncategorized to Dining; the feedback loop does add the keyword and
persist, yet re-running categorization on a fresh batch with the same
description (different casing) assigns Fees, not Dining, because a later
category also matches and the last match wins. -/
theorem claim_C8_counterexample :
    save_changes [("Uncategorized", []), ("Dining", []), ("Fees", ["coffee shop"])]
        [⟨"Coffee Shop", some "Uncategorized"⟩] [⟨"Coffee Shop", some "Dining"⟩] =
      some ([("Uncategorized", []), ("Dining", ["Coffee Shop"]),
          ("Fees", ["coffee shop"])],
        [⟨"Coffee Shop", some "Dining"⟩]) ∧
    (categorize_transaction
        [("Uncategorized", []), ("Dining", ["Coffee Shop"]), ("Fees", ["coffee shop"])]
        [] ⟨true, [⟨"COFFEE shop", none⟩]⟩).batch.rows =
      [⟨"COFFEE shop", some "Fees"⟩] ∧
    some "Fees" ≠ some "Dining" := by decide

/-- C8 amended: a save-changes run over edits where position n reassigns
a row to an existing category newCat different from its stored one
updates that row of debits to newCat and leaves the stripped description
among the keywords of newCat in the persisted store; re-running
categorization on a fresh batch containing that description in any casing
assigns newCat provided newCat is not "Uncategorized" and no category
listed after newCat in the store also matches the description (otherwise
the last such match wins). -/
theorem claim_C8 :
    ∀ (store : RuleStore) (debits edited : List Row) (n : Nat) (e dRow : Row)
      (newCat : String) (store2 : RuleStore) (debits2 : List Row),
      save_changes store debits edited = some (store2, debits2) →
      edited[n]? = some e → debits[n]? = some dRow →
      e.category = some newCat → dRow.category ≠ some newCat →
      pyStrip e.details ≠ "" → newCat ≠ "Uncategorized" →
      (store.map Prod.fst).Nodup →
      debits2[n]? = some ⟨dRow.details, some newCat⟩ ∧
      (∃ kws, lookupStore store2 newCat = some kws ∧ pyStrip e.details ∈ kws) ∧
      (∀ (d2 : String) (pre post : RuleStore) (kws2 : List String),
        store2 = pre ++ (newCat, kws2) :: post →
        (∀ q ∈ post, ¬ isActive d2 q) →
        normDetail d2 = normKeyword (pyStrip e.details) →
        ∀ (prev : MatchLog) (rows : List Row) (j : Nat) (r : Row),
          rows[j]? = some r → r.details = d2 →
          (categorize_transaction store2 prev ⟨true, rows⟩).batch.rows[j]? =
            some ⟨d2, some newCat⟩) := by
  intro store debits edited n e dRow newCat store2 debits2 hrun hn hdx hec hne ht hU hnd
  have hdx0 : debits[0 + n]? = some dRow := by
    rw [Nat.zero_add]
    exact hdx
  have hat := save_changes_aux_at edited store debits 0 store2 debits2 n e dRow
    newCat hrun hn hdx0 hec hne ht
  rw [Nat.zero_add] at hat
  obtain ⟨h1, kws, hk, hmemk⟩ := hat
  refine ⟨h1, ⟨kws, hk, hmemk⟩, ?_⟩
  intro d2 pre post kws2 hsplit hpost hnorm prev rows j r hr hrd
  have hkeys := save_changes_aux_keys edited store debits 0 store2 debits2 hrun
  have hnd2 : (store2.map Prod.fst).Nodup := by
    rw [hkeys]
    exact hnd
  have hlk2 : lookupStore store2 newCat = some kws2 :=
    lookup_eq_of_split pre post newCat kws2 store2 hsplit hnd2
  have hkk : kws2 = kws := Option.some.inj (hlk2.symm.trans hk)
  have hmm : normDetail d2 ∈ kws2.map normKeyword := by
    rw [hnorm, hkk]
    exact List.mem_map_of_mem normKeyword hmemk
  have hassign := assignedFrom_last pre post (newCat, kws2) d2
    (some "Uncategorized") ⟨hU, hmm⟩ hpost
  have hrow := categorize_rowAt store2 prev ⟨true, rows⟩ j r rfl hr
  rw [hrow, hrd, hsplit, hassign]

/-- C8 witness: the amended C8 on the Coffee Shop to Dining scenario with
no later matching category; the fresh batch row COFFEE shop is assigned
Dining. -/
theorem claim_C8_witness :
    (categorize_transaction [("Uncategorized", []), ("Dining", ["Coffee Shop"])] []
        ⟨true, [⟨"COFFEE shop", none⟩]⟩).batch.rows[0]? =
      some ⟨"COFFEE shop", some "Dining"⟩ := by
  have h := claim_C8 [("Uncategorized", []), ("Dining", [])]
    [⟨"Coffee Shop", some "Uncategorized"⟩] [⟨"Coffee Shop", some "Dining"⟩] 0
    ⟨"Coffee Shop", some "Dining"⟩ ⟨"Coffee Shop", some "Uncategorized"⟩ "Dining"
    [("Uncategorized", []), ("Dining", ["Coffee Shop"])]
    [⟨"Coffee Shop", some "Dining"⟩]
    (by decide) rfl rfl rfl (by decide) (by decide) (by decide) (by decide)
  exact h.2.2 "COFFEE shop" [("Uncategorized", [])] [] ["Coffee Shop"] rfl
    (by intro q hq; cases hq) (by decide) [] [⟨"COFFEE shop", none⟩] 0
    ⟨"COFFEE shop", none⟩ rfl rfl

example : normDetail "  Walmart " = "walmart" := by decide
example : normKeyword " WALMART " = "walmart" := by decide
